import Mathlib

/-!
Shallow embedding of the `HardTimerAsEncoder.ino` sketch (quadrature encoder
simulator and overflow-driven revolution counter), together with proofs of the
behavioural properties stated in its specification.

Machine integers are modelled as `Nat` with explicit reduction:
`unsigned long` / `uint32_t` values are taken modulo 4294967296 (2^32) and
`unsigned char` values modulo 256 wherever the C code can wrap.
-/

/-- The quadrature state table of `simulateStep`:
`static const unsigned char states[] = {0,1,3,2}`, each entry packed as
`B<<1 | A`. -/
def states : List Nat := [0, 1, 3, 2]

/-- `simulateStep(uint8_t step)`: writes `states[step&3] & 0x01` to output pin A
and `states[step&3] >> 1` to output pin B. Modelled as returning the pair
`(levelA, levelB)` of driven levels. The index `step &&& 3` is always `< 4`,
so the `getD` default is never taken. -/
def simulateStep (step : Nat) : Nat × Nat :=
  let s := states.getD (step &&& 3) 0
  (s &&& 0x01, s >>> 1)

/-- Reconfiguration requests that the serial command handler issues to the
timer peripheral (`timer.setEdgeCounting` / `timer.setPrescaleFactor`). -/
inductive TimerReq where
  | edgeEncoder1 : TimerReq
  | edgeEncoder2 : TimerReq
  | edgeEncoder3 : TimerReq
  | prescale : Nat → TimerReq
deriving DecidableEq

/-- The static local state of `simulate()` (update period, last tick time,
step counter `mode`, direction byte `dir`) together with the levels the
simulator last drove on the two output pins. `updatePeriod` and
`lastSimulationAt` are `unsigned long` (32-bit), `mode` is `unsigned char`
(8-bit), `dir` is a character (`'F'` or `'R'` once set). -/
structure SimState where
  updatePeriod : Nat
  lastSimulationAt : Nat
  mode : Nat
  dir : Char
  pinA : Nat
  pinB : Nat
deriving DecidableEq

/-- `static const uint16_t periodDelta = 50`. -/
def periodDelta : Nat := 50

/-- Initial values of the statics in `simulate()` (`updatePeriod = 100`,
`lastSimulationAt = 0`, `mode = 0`, `dir = 'F'`), with the pins as left by the
`simulateStep(0)` call in `setup()`. -/
def simInit : SimState :=
  { updatePeriod := 100, lastSimulationAt := 0, mode := 0, dir := 'F'
    pinA := 0, pinB := 0 }

/-- State mutation performed by the serial-command branch of `simulate()` for
one received byte. The source tests the byte with a sequence of independent
`if`s whose guards are mutually exclusive single-character comparisons, so they
are rendered as an `else if` chain. `'F'`/`'R'` set `dir`; `'-'` does
`updatePeriod += periodDelta` (32-bit wraparound); `'+'` does
`if (updatePeriod <= periodDelta) updatePeriod = 50; else updatePeriod -= periodDelta`. -/
def handleByteState (st : SimState) (b : Char) : SimState :=
  if b = 'F' ∨ b = 'R' then { st with dir := b }
  else if b = '-' then
    { st with updatePeriod := (st.updatePeriod + periodDelta) % 4294967296 }
  else if b = '+' then
    { st with updatePeriod :=
        if st.updatePeriod ≤ periodDelta then 50 else st.updatePeriod - periodDelta }
  else st

/-- Timer-peripheral requests issued by the serial-command branch of
`simulate()` for one received byte: `'1'`/`'2'`/`'3'` select the edge-counting
mode, `'4'`/`'0'` set the prescale factor. -/
def handleByteReqs (b : Char) : List TimerReq :=
  if b = '1' then [TimerReq.edgeEncoder1]
  else if b = '2' then [TimerReq.edgeEncoder2]
  else if b = '3' then [TimerReq.edgeEncoder3]
  else if b = '4' then [TimerReq.prescale 4]
  else if b = '0' then [TimerReq.prescale 1]
  else []

/-- Full effect of the serial-command branch for one byte: the mutated
simulator state plus the requests sent to the timer peripheral. -/
def handleByte (st : SimState) (b : Char) : SimState × List TimerReq :=
  (handleByteState st b, handleByteReqs b)

/-- Feeds a sequence of command bytes through the handler, one per
`simulate()` invocation, and returns the resulting simulator state. -/
def runBytes (bs : List Char) (st : SimState) : SimState :=
  bs.foldl (fun s b => (handleByte s b).1) st

/-- The per-tick update of the 8-bit step counter in `simulate()`:
`if (dir == 'F') mode++; if (dir == 'R') mode--;` on `unsigned char mode`
(both increment and decrement wrap modulo 256). -/
def stepMode (dir : Char) (m : Nat) : Nat :=
  let m1 := if dir = 'F' then (m + 1) % 256 else m
  if dir = 'R' then (m1 + 255) % 256 else m1

/-- `stepN dir n m` iterates the per-tick step-counter update `n` times. -/
def stepN (dir : Char) : Nat → Nat → Nat
  | 0, m => m
  | n + 1, m => stepN dir n (stepMode dir m)

/-- One invocation of `simulate()` from `loop()`: first the serial-command
branch handles at most one available byte, then, when
`millis() - lastSimulationAt >= updatePeriod` holds under unsigned 32-bit
subtraction, a simulation tick fires: `lastSimulationAt` is set to the current
time, the step counter is advanced according to `dir`, and `simulateStep`
drives the output pins. Returns the new state, the timer requests issued, and
whether a tick fired. -/
def simulate (input : Option Char) (now : Nat) (st0 : SimState) :
    SimState × List TimerReq × Bool :=
  let p := match input with
    | some b => handleByte st0 b
    | none => (st0, [])
  let st := p.1
  let elapsed := (now % 4294967296 + (4294967296 - st.lastSimulationAt % 4294967296)) % 4294967296
  if st.updatePeriod ≤ elapsed then
    let st1 := { st with lastSimulationAt := now % 4294967296 }
    let m := stepMode st1.dir st1.mode
    let lv := simulateStep m
    ({ st1 with mode := m, pinA := lv.1, pinB := lv.2 }, p.2, true)
  else (st, p.2, false)

/-- Runs the cooperative scheduler with no serial input pending: `simulate` is
invoked once at each listed time, and the times at which a simulation tick
fired are collected in order. -/
def runSim (times : List Nat) (st : SimState) : SimState × List Nat :=
  times.foldl
    (fun acc t =>
      let r := simulate none t acc.1
      (r.1, if r.2.2 then acc.2 ++ [t] else acc.2))
    (st, [])

/-- The check schedule for the 0..250 ms scenario: the tick check runs every
50 ms. -/
def sched250 : List Nat := [0, 50, 100, 150, 200, 250]

/-- Process-wide state seen by the overflow interrupt handler: the
`volatile uint32_t revolutions` counter plus the simulator state (which the
handler never touches). -/
structure SysState where
  revolutions : Nat
  sim : SimState
deriving DecidableEq

/-- `overflowInterrupt()`: reads the timer direction flag
(`timer.getDirection()`); when it is nonzero (reverse) the handler does
`revolutions--`, otherwise `revolutions++`, both with `uint32_t` wraparound. -/
def overflowInterrupt (dirFlag : Nat) (st : SysState) : SysState :=
  if dirFlag ≠ 0 then
    { st with revolutions := (st.revolutions + 4294967295) % 4294967296 }
  else
    { st with revolutions := (st.revolutions + 1) % 4294967296 }

/-- C1: for every step index s in {0,1,2,3}, `simulateStep` drives the pins to
(A=0,B=0), (A=1,B=0), (A=1,B=1), (A=0,B=1) respectively, pin A receiving bit 0
and pin B receiving bit 1 of the packed table entry `states[s]`. -/
theorem C1_simulateStep_levels :
    simulateStep 0 = (0, 0) ∧ simulateStep 1 = (1, 0) ∧
    simulateStep 2 = (1, 1) ∧ simulateStep 3 = (0, 1) ∧
    ((List.range 4).all fun s =>
      simulateStep s == (states.getD s 0 % 2, states.getD s 0 / 2)) = true := by
  decide

/-- C2 counterexample: the claim maps index 2 to (0,1) and index 3 to (1,1),
but the code produces (1,1) at index 2 (and (0,1) at index 3). -/
theorem C2_simulateStep_pairs_cex :
    simulateStep 2 = (1, 1) ∧ simulateStep 2 ≠ (0, 1) := by
  decide

/-- C2 amended: for all step in {0,1,2,3}, the step-to-levels lookup returns
exactly 0→(0,0), 1→(1,0), 2→(1,1), 3→(0,1); index 2 produces both lines high
and index 3 produces B high with A low. -/
theorem C2_simulateStep_pairs_amended :
    simulateStep 0 = (0, 0) ∧ simulateStep 1 = (1, 0) ∧
    simulateStep 2 = (1, 1) ∧ simulateStep 3 = (0, 1) := by
  decide

/-- C6: four consecutive forward ticks return the effective 2-bit step index
(`mode % 4`, as consumed by the table lookup) to its starting value. -/
theorem C6_four_forward_ticks_cycle (m : Nat) :
    stepN 'F' 4 m % 4 = m % 4 := by
  simp [stepN, stepMode]
  omega

/-- The iterated forward step counter is `(m + n) % 256` as a residue. -/
lemma stepN_F_mod (n : Nat) : ∀ m : Nat, stepN 'F' n m % 256 = (m + n) % 256 := by
  induction n with
  | zero => intro m; simp [stepN]
  | succ k ih =>
    intro m
    have h := ih ((m + 1) % 256)
    simp [stepN, stepMode] at h ⊢
    omega

/-- The iterated reverse step counter is `(m + 255 * n) % 256` as a residue. -/
lemma stepN_R_mod (n : Nat) : ∀ m : Nat, stepN 'R' n m % 256 = (m + 255 * n) % 256 := by
  induction n with
  | zero => intro m; simp [stepN]
  | succ k ih =>
    intro m
    have h := ih ((m + 255) % 256)
    simp [stepN, stepMode] at h ⊢
    omega

/-- C7: for every starting step counter and every n, n forward ticks followed
by n reverse ticks return the effective 2-bit step index to its original
value. -/
theorem C7_forward_then_reverse_inverse (m n : Nat) :
    stepN 'R' n (stepN 'F' n m) % 4 = m % 4 := by
  have h1 := stepN_F_mod n m
  have h2 := stepN_R_mod n (stepN 'F' n m)
  omega

/-- C8: a reverse tick taken at effective step index 0 wraps the 8-bit counter
(0 becomes 255) and the 2-bit truncation used by the lookup maps it to
effective index 3; the lookup itself stays in range and yields (A=0,B=1). -/
theorem C8_reverse_tick_wraps (m : Nat) :
    stepMode 'R' 0 = 255 ∧ stepMode 'R' 0 % 4 = 3 ∧
    simulateStep (stepMode 'R' 0) = (0, 1) ∧
    (m % 4 = 0 → stepMode 'R' m % 4 = 3) := by
  refine ⟨by decide, by decide, by decide, fun h => ?_⟩
  simp [stepMode]
  omega

/-- C8 witness: a reverse tick at step counter 4 (effective index 0) yields
effective index 3. -/
theorem C8_reverse_tick_wraps_witness :
    4 % 4 = 0 ∧ stepMode 'R' 4 % 4 = 3 :=
  ⟨by decide, (C8_reverse_tick_wraps 4).2.2.2 (by decide)⟩

/-- C9: every byte outside {'F','R','1','2','3','4','0','-','+'} leaves the
whole simulator state unchanged and issues no request to the timer
peripheral. -/
theorem C9_unrecognized_byte_noop (st : SimState) (b : Char)
    (h : b ∉ ['F', 'R', '1', '2', '3', '4', '0', '-', '+']) :
    handleByte st b = (st, []) := by
  simp only [List.mem_cons, List.not_mem_nil, or_false, not_or] at h
  obtain ⟨h1, h2, h3, h4, h5, h6, h7, h8, h9⟩ := h
  simp [handleByte, handleByteState, handleByteReqs, h1, h2, h3, h4, h5, h6, h7, h8, h9]

/-- C9 witness: the unrecognized byte 'x' is a no-op from the initial state. -/
theorem C9_unrecognized_byte_noop_witness :
    handleByte simInit 'x' = (simInit, []) :=
  C9_unrecognized_byte_noop simInit 'x' (by decide)

/-- C3: one overflow-handler invocation with direction flag 0 adds exactly 1
to the revolution counter and with a nonzero flag subtracts exactly 1, both in
the counter's uint32 arithmetic (literal `+1`/`-1` away from the wrap
boundary); the simulator state is untouched. -/
theorem C3_overflowInterrupt_unit_delta (st : SysState) (f : Nat) :
    (f = 0 → (overflowInterrupt f st).revolutions = (st.revolutions + 1) % 4294967296) ∧
    (f ≠ 0 → (overflowInterrupt f st).revolutions =
      (st.revolutions + 4294967295) % 4294967296) ∧
    (f = 0 → st.revolutions + 1 < 4294967296 →
      (overflowInterrupt f st).revolutions = st.revolutions + 1) ∧
    (f ≠ 0 → 0 < st.revolutions → st.revolutions < 4294967296 →
      (overflowInterrupt f st).revolutions = st.revolutions - 1) ∧
    (overflowInterrupt f st).sim = st.sim := by
  refine ⟨?_, ?_, ?_, ?_, ?_⟩
  · intro hf; simp [overflowInterrupt, hf]
  · intro hf; simp [overflowInterrupt, hf]
  · intro hf h1; simp [overflowInterrupt, hf]; omega
  · intro hf h1 h2; simp [overflowInterrupt, hf]; omega
  · by_cases hf : f = 0 <;> simp [overflowInterrupt, hf]

/-- C3 witness: from counter 5 a forward overflow yields 6, and from counter 7
a reverse overflow yields 6. -/
theorem C3_overflowInterrupt_unit_delta_witness :
    (overflowInterrupt 0 ⟨5, simInit⟩).revolutions = 6 ∧
    (overflowInterrupt 1 ⟨7, simInit⟩).revolutions = 6 := by
  constructor
  · have h := (C3_overflowInterrupt_unit_delta ⟨5, simInit⟩ 0).2.2.1 rfl (by norm_num)
    simpa using h
  · have h := (C3_overflowInterrupt_unit_delta ⟨7, simInit⟩ 1).2.2.2.1
      (by norm_num) (by norm_num) (by norm_num)
    simpa using h

/-- C10: the revolution counter is a uint32: the handler preserves
`revolutions < 2^32`, a reverse-direction overflow taken at 0 yields
4294967295, and the stored value (a natural number below 2^32) is never
negative. -/
theorem C10_revolutions_uint32 (st : SysState) (f : Nat) :
    (st.revolutions < 4294967296 → (overflowInterrupt f st).revolutions < 4294967296) ∧
    (st.revolutions = 0 → f ≠ 0 → (overflowInterrupt f st).revolutions = 4294967295) := by
  constructor
  · intro h
    by_cases hf : f = 0 <;> simp [overflowInterrupt, hf] <;> omega
  · intro h0 hf
    simp [overflowInterrupt, hf, h0]

/-- C10 witness: a reverse overflow at counter 0 yields 4294967295. -/
theorem C10_revolutions_uint32_witness :
    (overflowInterrupt 1 ⟨0, simInit⟩).revolutions = 4294967295 :=
  (C10_revolutions_uint32 ⟨0, simInit⟩ 1).2 rfl (by norm_num)

/-- `runBytes` on an empty byte sequence is the identity. -/
lemma runBytes_nil (st : SimState) : runBytes [] st = st := rfl

/-- `runBytes` peels off the first byte through `handleByteState`. -/
lemma runBytes_cons (b : Char) (bs : List Char) (st : SimState) :
    runBytes (b :: bs) st = runBytes bs (handleByteState st b) := rfl

/-- The `'-'` command adds `periodDelta` to `updatePeriod` modulo 2^32. -/
lemma handleByteState_minus (st : SimState) :
    (handleByteState st '-').updatePeriod = (st.updatePeriod + 50) % 4294967296 := by
  simp [handleByteState, periodDelta]

/-- One command byte keeps `updatePeriod` a multiple of 50 that is at least 50,
and raises it by at most 50, provided the current period is such a multiple and
adding 50 cannot wrap the 32-bit value. -/
lemma handleByteState_period_step (st : SimState) (b : Char)
    (hd : 50 ∣ st.updatePeriod) (hge : 50 ≤ st.updatePeriod)
    (hlt : st.updatePeriod + 50 < 4294967296) :
    50 ∣ (handleByteState st b).updatePeriod ∧
    50 ≤ (handleByteState st b).updatePeriod ∧
    (handleByteState st b).updatePeriod ≤ st.updatePeriod + 50 := by
  unfold handleByteState periodDelta
  split_ifs with h1 h2 h3 h4
  · exact ⟨hd, hge, Nat.le_add_right _ _⟩
  · show 50 ∣ (st.updatePeriod + 50) % 4294967296 ∧
        50 ≤ (st.updatePeriod + 50) % 4294967296 ∧
        (st.updatePeriod + 50) % 4294967296 ≤ st.updatePeriod + 50
    rw [Nat.mod_eq_of_lt hlt]
    obtain ⟨k, hk⟩ := hd
    exact ⟨⟨k + 1, by omega⟩, by omega, Nat.le_refl _⟩
  · exact ⟨⟨1, rfl⟩, Nat.le_refl _, Nat.le_add_left _ _⟩
  · show 50 ∣ st.updatePeriod - 50 ∧ 50 ≤ st.updatePeriod - 50 ∧
        st.updatePeriod - 50 ≤ st.updatePeriod + 50
    obtain ⟨k, hk⟩ := hd
    have hk1 : 2 ≤ k := by omega
    exact ⟨⟨k - 1, by omega⟩, by omega, by omega⟩
  · exact ⟨hd, hge, by omega⟩

/-- Every command-byte sequence short enough that the `'-'` additions cannot
wrap the 32-bit period keeps `updatePeriod` a multiple of 50, at least 50, and
at most 50 per byte above its starting value. -/
lemma runBytes_period_inv (bs : List Char) : ∀ st : SimState,
    50 ∣ st.updatePeriod → 50 ≤ st.updatePeriod →
    st.updatePeriod + 50 * bs.length < 4294967296 →
    50 ∣ (runBytes bs st).updatePeriod ∧ 50 ≤ (runBytes bs st).updatePeriod ∧
    (runBytes bs st).updatePeriod ≤ st.updatePeriod + 50 * bs.length := by
  induction bs with
  | nil =>
    intro st h1 h2 h3
    rw [runBytes_nil]
    exact ⟨h1, h2, by omega⟩
  | cons b bs ih =>
    intro st h1 h2 h3
    rw [runBytes_cons]
    have hlen : (b :: bs).length = bs.length + 1 := List.length_cons b bs
    have hl : st.updatePeriod + 50 < 4294967296 := by rw [hlen] at h3; omega
    have hstep := handleByteState_period_step st b h1 h2 hl
    have hrec := ih (handleByteState st b) hstep.1 hstep.2.1
      (by rw [hlen] at h3; omega)
    refine ⟨hrec.1, hrec.2.1, ?_⟩
    have h4 := hrec.2.2
    have h5 := hstep.2.2
    rw [hlen]
    omega

/-- C4 counterexample helper: a run of n `'-'` bytes leaves
`updatePeriod = (start + 50 n) mod 2^32`. -/
lemma runBytes_replicate_minus (n : Nat) : ∀ st : SimState,
    st.updatePeriod < 4294967296 →
    (runBytes (List.replicate n '-') st).updatePeriod =
      (st.updatePeriod + 50 * n) % 4294967296 := by
  induction n with
  | zero =>
    intro st h
    rw [List.replicate_zero, runBytes_nil]
    omega
  | succ k ih =>
    intro st h
    rw [List.replicate_succ, runBytes_cons]
    have ih2 := ih (handleByteState st '-') (by rw [handleByteState_minus]; omega)
    rw [ih2, handleByteState_minus]
    omega

/-- C4 counterexample: the invariant `updatePeriodMs ≥ 50` fails on a long
enough command sequence: 85899344 `'-'` bytes from the initial state wrap the
32-bit period to 4, which is below 50. -/
theorem C4_updatePeriod_cex :
    (runBytes (List.replicate 85899344 '-') simInit).updatePeriod = 4 ∧
    ¬ 50 ≤ (runBytes (List.replicate 85899344 '-') simInit).updatePeriod := by
  have h := runBytes_replicate_minus 85899344 simInit (by decide)
  rw [h]
  norm_num [simInit]

/-- C4 amended: `'-'` adds exactly 50 (modulo 2^32, hence literally whenever no
32-bit wrap occurs) and `'+'` subtracts 50 clamping at 50: from 100, `'-'`
yields 150 and `'+'` yields 50; from 50, `'+'` stays at 50; and `updatePeriodMs`
stays ≥ 50 on every command sequence of at most 85899343 bytes from the
initial state (long enough `'-'` runs wrap the 32-bit counter below 50). -/
theorem C4_updatePeriod_amended :
    (handleByteState simInit '-').updatePeriod = 150 ∧
    (handleByteState simInit '+').updatePeriod = 50 ∧
    (handleByteState { simInit with updatePeriod := 50 } '+').updatePeriod = 50 ∧
    (∀ st : SimState, st.updatePeriod + 50 < 4294967296 →
      (handleByteState st '-').updatePeriod = st.updatePeriod + 50) ∧
    (∀ bs : List Char, bs.length ≤ 85899343 →
      50 ≤ (runBytes bs simInit).updatePeriod) := by
  refine ⟨by decide, by decide, by decide, fun st h => ?_, fun bs h => ?_⟩
  · rw [handleByteState_minus]
    omega
  · have hinv := runBytes_period_inv bs simInit (by decide) (by decide)
      (by simp only [simInit]; omega)
    exact hinv.2.1

/-- C4 witness: `'-'` at period 200 yields exactly 250, and the three-byte
sequence `+ + -` keeps the period at or above 50. -/
theorem C4_updatePeriod_amended_witness :
    (handleByteState { simInit with updatePeriod := 200 } '-').updatePeriod = 250 ∧
    50 ≤ (runBytes ['+', '+', '-'] simInit).updatePeriod := by
  constructor
  · have h := C4_updatePeriod_amended.2.2.2.1
      { simInit with updatePeriod := 200 } (by decide)
    simpa using h
  · exact C4_updatePeriod_amended.2.2.2.2 ['+', '+', '-'] (by decide)

/-- C5 counterexample: in the 0..250 ms scenario (checks every 50 ms, no
serial input) the final output pins are not (A=0,B=1): pin A is driven high. -/
theorem C5_endToEnd_cex :
    ¬ ((runSim sched250 simInit).1.pinA = 0 ∧
       (runSim sched250 simInit).1.pinB = 1) := by
  decide

/-- C5 amended: from the initial state, running the scheduler at
0,50,...,250 ms fires exactly 2 ticks (at t=100 and t=200), leaves the
effective step index at 2, and leaves the pins at (A=1,B=1). -/
theorem C5_endToEnd_amended :
    (runSim sched250 simInit).2 = [100, 200] ∧
    (runSim sched250 simInit).2.length = 2 ∧
    (runSim sched250 simInit).1.mode % 4 = 2 ∧
    (runSim sched250 simInit).1.pinA = 1 ∧
    (runSim sched250 simInit).1.pinB = 1 := by
  decide
